import Mathlib

/-!
# User tags of JPFrancoia/v2: storage, validator and API flows

A shallow embedding of `internal/model/user_tag.go`, `internal/storage/user_tag.go`,
`internal/validator/user_tag.go` and the tag handlers of `internal/api/user_tag.go`.

* IDs are Go `int64`; they are only compared and copied, so they are modelled as `Int`.
* The Go `Storage` holds a handle `db` on a PostgreSQL database.  The model `Storage` is what
  that handle reaches: the rows of `user_tags` and `entry_user_tags`, the ID sequence, and the
  two pieces of the database that the Go sources use without defining them (SQL `lower` and the
  constraints declared on `user_tags`).
* Every method runs its SQL statement on that state.  A single statement fails only when a
  constraint rejects it; the multi-statement `SetEntryUserTags` additionally takes a `TxFaults`
  argument that says which of its driver calls fail for reasons outside the tables.
* The order of the rows returned by a `SELECT` without `ORDER BY` is the table order of the model;
  theorems about such results speak of membership and multiplicity only.
-/

namespace Miniflux

/-! ## internal/model/user_tag.go -/

/-- UserTag represents a user-defined tag. -/
structure UserTag where
  ID : Int
  UserID : Int
  Title : String
  EntryCount : Option Int
  deriving DecidableEq

/-- UserTagCreationRequest represents a request to create a user tag. -/
structure UserTagCreationRequest where
  Title : String
  deriving DecidableEq

/-- UserTagModificationRequest represents a request to modify a user tag; `Title` is a Go
`*string`, `none` being the nil pointer. -/
structure UserTagModificationRequest where
  Title : Option String
  deriving DecidableEq

/-- Patch applies the modification request to the given tag (the Go method mutates `*tag`; the
model returns the tag after the call). -/
def UserTagModificationRequest.Patch (r : UserTagModificationRequest) (tag : UserTag) : UserTag :=
  match r.Title with
  | some title => { tag with Title := title }
  | none => tag

/-! ## The database behind `Storage.db` -/

/-- A row of table `user_tags` (columns `id, user_id, title`). -/
structure UserTagRow where
  id : Int
  user_id : Int
  title : String
  deriving DecidableEq

/-- A row of table `entry_user_tags` (columns `entry_id, user_tag_id`). -/
structure EntryUserTagRow where
  entry_id : Int
  user_tag_id : Int
  deriving DecidableEq

/-- The state reached through `Storage.db`.  `lower` is SQL `lower()`; `accepts` stands for the
constraints declared on `user_tags` besides its primary key (for instance a unique index on the
titles of a user): an `INSERT` or `UPDATE` whose resulting table is not accepted is rejected (a
`DELETE` cannot break such a constraint).  Nothing is assumed about either. -/
structure Storage where
  lower : String → String
  accepts : List UserTagRow → Bool
  user_tags : List UserTagRow
  entry_user_tags : List EntryUserTagRow
  user_tags_id_seq : Int

/-- The `model.UserTag` scanned from `SELECT id, user_id, title`. -/
def UserTagRow.scan (r : UserTagRow) : UserTag :=
  { ID := r.id, UserID := r.user_id, Title := r.title, EntryCount := none }

/-! ## internal/storage/user_tag.go -/

/-- UserTagByID returns a user tag by its ID: `WHERE user_id=$1 AND id=$2`, no row gives
`nil, nil`. -/
def Storage.UserTagByID (s : Storage) (userID tagID : Int) : Except String (Option UserTag) :=
  match s.user_tags.find? (fun r => r.user_id = userID ∧ r.id = tagID) with
  | none => .ok none
  | some r => .ok (some r.scan)

/-- UserTagByTitle returns a user tag by its title: `WHERE user_id=$1 AND lower(title)=lower($2)`. -/
def Storage.UserTagByTitle (s : Storage) (userID : Int) (title : String) :
    Except String (Option UserTag) :=
  match s.user_tags.find? (fun r => r.user_id = userID ∧ s.lower r.title = s.lower title) with
  | none => .ok none
  | some r => .ok (some r.scan)

/-- UserTagIDExists checks if the given user tag exists. -/
def Storage.UserTagIDExists (s : Storage) (userID tagID : Int) : Bool :=
  s.user_tags.any (fun r => r.user_id = userID ∧ r.id = tagID)

/-- UserTagTitleExists checks if a user tag with the given title exists:
`WHERE user_id=$1 AND lower(title)=lower($2) LIMIT 1`. -/
def Storage.UserTagTitleExists (s : Storage) (userID : Int) (title : String) : Bool :=
  s.user_tags.any (fun r => r.user_id = userID ∧ s.lower r.title = s.lower title)

/-- AnotherUserTagExists checks if another user tag exists with the same title:
`WHERE user_id=$1 AND id != $2 AND lower(title)=lower($3) LIMIT 1`. -/
def Storage.AnotherUserTagExists (s : Storage) (userID tagID : Int) (title : String) : Bool :=
  s.user_tags.any (fun r => r.user_id = userID ∧ r.id ≠ tagID ∧ s.lower r.title = s.lower title)

/-- CreateUserTag creates a new user tag: `INSERT INTO user_tags (user_id, title) VALUES ($1, $2)
RETURNING id, user_id, title`; the ID comes from the sequence of the table. -/
def Storage.CreateUserTag (s : Storage) (userID : Int) (request : UserTagCreationRequest) :
    Except String UserTag × Storage :=
  let row : UserTagRow := { id := s.user_tags_id_seq, user_id := userID, title := request.Title }
  if s.accepts (s.user_tags ++ [row]) then
    (.ok row.scan,
      { s with user_tags := s.user_tags ++ [row], user_tags_id_seq := s.user_tags_id_seq + 1 })
  else
    (.error "store: unable to create user tag", s)

/-- UpdateUserTag updates an existing user tag:
`UPDATE user_tags SET title=$1 WHERE id=$2 AND user_id=$3`. -/
def Storage.UpdateUserTag (s : Storage) (tag : UserTag) : Option String × Storage :=
  let rows := s.user_tags.map
    (fun r => if r.id = tag.ID ∧ r.user_id = tag.UserID then { r with title := tag.Title } else r)
  if s.accepts rows then
    (none, { s with user_tags := rows })
  else
    (some "store: unable to update user tag", s)

/-- Modelled from the spec: the reference from `entry_user_tags.user_tag_id` to `user_tags (id)`,
which the Go sources do not contain.  The spec has the deletion of a tag remove all the
associations of that tag in the same unit of work (I3); so `DELETE FROM user_tags WHERE id = $1
AND user_id = $2` removes the matching tag rows together with the associations that reference
them.  Returns the number of tag rows removed (`RowsAffected`) and the database after the
statement. -/
def Storage.deleteUserTag (s : Storage) (tagID userID : Int) : Nat × Storage :=
  let deleted := s.user_tags.filter (fun r => r.id = tagID ∧ r.user_id = userID)
  (deleted.length,
    { s with
        user_tags := s.user_tags.filter (fun r => ¬ (r.id = tagID ∧ r.user_id = userID))
        entry_user_tags := s.entry_user_tags.filter
          (fun a => a.user_tag_id ∉ deleted.map (fun r => r.id)) })

/-- RemoveUserTag deletes a user tag and all its entry associations.  Returns the Go `error` and
the database after the call. -/
def Storage.RemoveUserTag (s : Storage) (userID tagID : Int) : Option String × Storage :=
  let result := s.deleteUserTag tagID userID
  if result.1 = 0 then
    (some "store: no user tag has been removed", result.2)
  else
    (none, result.2)

/-- EntryUserTagIDs returns the IDs of user tags assigned to an entry:
`SELECT eut.user_tag_id FROM entry_user_tags eut JOIN user_tags ut ON ut.id = eut.user_tag_id
WHERE ut.user_id = $1 AND eut.entry_id = $2`. -/
def Storage.EntryUserTagIDs (s : Storage) (userID entryID : Int) : Except String (List Int) :=
  .ok (s.entry_user_tags.flatMap (fun eut =>
    (s.user_tags.filter
      (fun ut => ut.id = eut.user_tag_id ∧ ut.user_id = userID ∧ eut.entry_id = entryID)).map
      (fun _ => eut.user_tag_id)))

/-- Which driver calls of one `SetEntryUserTags` run fail for a reason outside the tables
(connection lost, a constraint on a table that is not modelled, ...): `Begin`, the clearing
`DELETE`, the `INSERT` of the i-th element of `tagIDs`, `Commit`. -/
structure TxFaults where
  beginFails : Bool
  clearFails : Bool
  insertFails : Nat → Bool
  commitFails : Bool

/-- No driver call fails. -/
def TxFaults.none : TxFaults :=
  { beginFails := false, clearFails := false, insertFails := fun _ => false, commitFails := false }

/-- An open `sql.Tx`: the committed state it started from and the state its statements see. -/
structure Tx where
  committed : Storage
  current : Storage

/-- The transaction opened by `s.db.Begin()`. -/
def Storage.Begin (s : Storage) : Tx := { committed := s, current := s }

/-- The database after `tx.Rollback()`: the statements of the transaction are discarded. -/
def Tx.Rollback (tx : Tx) : Storage := tx.committed

/-- The call `tx.Commit()`: the returned error and the database after it.  A commit that reports
an error has applied nothing of the transaction. -/
def Tx.Commit (tx : Tx) (fails : Bool) : Option String × Storage :=
  if fails then (some "pq: could not commit", tx.committed) else (none, tx.current)

/-- The clearing statement of `SetEntryUserTags`: `DELETE FROM entry_user_tags WHERE entry_id = $1
AND user_tag_id IN (SELECT id FROM user_tags WHERE user_id = $2)`. -/
def Tx.clearEntryUserTags (tx : Tx) (entryID userID : Int) : Tx :=
  { tx with current := { tx.current with
      entry_user_tags := tx.current.entry_user_tags.filter (fun r =>
        ¬ (r.entry_id = entryID ∧
            r.user_tag_id ∈ (tx.current.user_tags.filter (fun t => t.user_id = userID)).map
              (fun t => t.id))) } }

/-- Modelled from the spec: the declaration of table `entry_user_tags` (its key and its reference
to `user_tags`), which the Go sources do not contain.  The spec makes the pair (entry ID, tag ID)
the identity of an association, and has an insert fail when the referenced tag does not exist; so
`INSERT INTO entry_user_tags (entry_id, user_tag_id) VALUES ($1, $2)` is rejected when the pair is
already stored or no tag has that ID, and appends the row otherwise. -/
def Tx.insertEntryUserTag (tx : Tx) (entryID tagID : Int) : Except String Tx :=
  if (⟨entryID, tagID⟩ : EntryUserTagRow) ∈ tx.current.entry_user_tags then
    .error "duplicate key value violates unique constraint"
  else if tagID ∉ tx.current.user_tags.map (fun t => t.id) then
    .error "insert violates foreign key constraint"
  else
    .ok { tx with current := { tx.current with
      entry_user_tags := tx.current.entry_user_tags ++ [⟨entryID, tagID⟩] } }

/-- The loop `for _, tagID := range tagIDs` of `SetEntryUserTags`, `i` being the position of the
head of the list in the original `tagIDs`.  `none` is the early exit on a failed insert (the Go
code then calls `tx.Rollback()`). -/
def insertEntryUserTags (f : TxFaults) (entryID : Int) : List Int → Nat → Tx → Option Tx
  | [], _, tx => some tx
  | tagID :: rest, i, tx =>
    if f.insertFails i then none
    else
      match tx.insertEntryUserTag entryID tagID with
      | .error _ => none
      | .ok tx' => insertEntryUserTags f entryID rest (i + 1) tx'

/-- SetEntryUserTags replaces all user tags for an entry.  Returns the Go `error` (`none` is
`nil`) and the database after the call. -/
def Storage.SetEntryUserTags (s : Storage) (f : TxFaults) (userID entryID : Int)
    (tagIDs : List Int) : Option String × Storage :=
  if f.beginFails then
    (some "store: unable to begin transaction", s)
  else
    let tx := s.Begin
    if f.clearFails then
      (some "store: unable to clear entry user tags", tx.Rollback)
    else
      let tx := tx.clearEntryUserTags entryID userID
      match insertEntryUserTags f entryID tagIDs 0 tx with
      | none => (some "store: unable to set entry user tag", tx.Rollback)
      | some tx => tx.Commit f.commitFails

/-! ## internal/validator/user_tag.go -/

/-- The `locale.LocalizedError` built by `locale.NewLocalizedError(message)`. -/
structure LocalizedError where
  message : String
  deriving DecidableEq

/-- Constructor `locale.NewLocalizedError`. -/
def NewLocalizedError (message : String) : LocalizedError := { message := message }

/-- What a call of a validator does: it returns a value, or it dereferences the nil `*Storage`
it was given (a Go run-time panic). -/
inductive Outcome (α : Type) where
  | ret : α → Outcome α
  | nilDereference : Outcome α
  deriving DecidableEq

/-- ValidateUserTagCreation validates user tag creation.  `store` is a Go `*storage.Storage`,
`none` being nil; the returned `none` is the nil `*locale.LocalizedError`. -/
def ValidateUserTagCreation (store : Option Storage) (userID : Int)
    (request : UserTagCreationRequest) : Outcome (Option LocalizedError) :=
  if request.Title = "" then
    .ret (some (NewLocalizedError "error.tag_title_required"))
  else
    match store with
    | none => .nilDereference
    | some s =>
      if s.UserTagTitleExists userID request.Title then
        .ret (some (NewLocalizedError "error.tag_already_exists"))
      else
        .ret none

/-- ValidateUserTagModification validates user tag modification. -/
def ValidateUserTagModification (store : Option Storage) (userID tagID : Int)
    (request : UserTagModificationRequest) : Outcome (Option LocalizedError) :=
  match request.Title with
  | some title =>
    if title = "" then
      .ret (some (NewLocalizedError "error.tag_title_required"))
    else
      match store with
      | none => .nilDereference
      | some s =>
        if s.AnotherUserTagExists userID tagID title then
          .ret (some (NewLocalizedError "error.tag_already_exists"))
        else
          .ret none
  | none => .ret none

/-! ## internal/api/user_tag.go -/

namespace api

/-- The response written by a handler (`json.BadRequest`, `json.ServerError`, `json.NotFound`,
`json.Created`, `json.NoContent`); `panicked` is a handler stopped by a run-time panic. -/
inductive Response where
  | BadRequest : String → Response
  | ServerError : String → Response
  | NotFound : Response
  | Created : UserTag → Response
  | NoContent : Response
  | panicked : Response
  deriving DecidableEq

/-- Handler `createUserTag`.  `userID` is `request.UserID(r)`; `body` is the result of decoding the
JSON body into a `model.UserTagCreationRequest` (`.error` when the decoder fails).  Returns the
response and the database after the request. -/
def createUserTag (store : Storage) (userID : Int) (body : Except String UserTagCreationRequest) :
    Response × Storage :=
  match body with
  | .error err => (.BadRequest err, store)
  | .ok tagCreationRequest =>
    match ValidateUserTagCreation (some store) userID tagCreationRequest with
    | .nilDereference => (.panicked, store)
    | .ret (some validationErr) => (.BadRequest validationErr.message, store)
    | .ret none =>
      match store.CreateUserTag userID tagCreationRequest with
      | (.error err, store') => (.ServerError err, store')
      | (.ok tag, store') => (.Created tag, store')

/-- Handler `updateUserTag`.  `tagID` is the route parameter `userTagID`; `body` is the result of
decoding the JSON body into a `model.UserTagModificationRequest`. -/
def updateUserTag (store : Storage) (userID tagID : Int)
    (body : Except String UserTagModificationRequest) : Response × Storage :=
  match store.UserTagByID userID tagID with
  | .error err => (.ServerError err, store)
  | .ok none => (.NotFound, store)
  | .ok (some tag) =>
    match body with
    | .error err => (.BadRequest err, store)
    | .ok tagModificationRequest =>
      match ValidateUserTagModification (some store) userID tag.ID tagModificationRequest with
      | .nilDereference => (.panicked, store)
      | .ret (some validationErr) => (.BadRequest validationErr.message, store)
      | .ret none =>
        let tag := tagModificationRequest.Patch tag
        match store.UpdateUserTag tag with
        | (some err, store') => (.ServerError err, store')
        | (none, store') => (.Created tag, store')

/-- Handler `setEntryUserTags`.  `entryID` is the route parameter; `body` is the decoded
`user_tag_ids` of the JSON body. -/
def setEntryUserTags (store : Storage) (f : TxFaults) (userID entryID : Int)
    (body : Except String (List Int)) : Response × Storage :=
  match body with
  | .error err => (.BadRequest err, store)
  | .ok userTagIDs =>
    match store.SetEntryUserTags f userID entryID userTagIDs with
    | (some err, store') => (.ServerError err, store')
    | (none, store') => (.NoContent, store')

/-- Handler `removeUserTag`. -/
def removeUserTag (store : Storage) (userID tagID : Int) : Response × Storage :=
  if ¬ store.UserTagIDExists userID tagID then
    (.NotFound, store)
  else
    match store.RemoveUserTag userID tagID with
    | (some err, store') => (.ServerError err, store')
    | (none, store') => (.NoContent, store')

end api

/-! ## State predicates -/

/-- The primary key and sequence of `user_tags`: no two rows share an ID, and every stored ID was
handed out by the sequence already. -/
def Storage.TagIDsFresh (s : Storage) : Prop :=
  (s.user_tags.map (fun t => t.id)).Nodup ∧ ∀ t ∈ s.user_tags, t.id < s.user_tags_id_seq

/-- Invariant I1: no two tags of the same user have titles equal under case-insensitive
comparison (two distinct rows of `user_tags` with the same `user_id` differ under `lower`). -/
def Storage.I1 (s : Storage) : Prop :=
  s.user_tags.Pairwise (fun a b => a.user_id = b.user_id → s.lower a.title ≠ s.lower b.title)

/-- The associations left by the clearing statement. -/
def keptEntryUserTags (s : Storage) (userID entryID : Int) : List EntryUserTagRow :=
  s.entry_user_tags.filter (fun r =>
    ¬ (r.entry_id = entryID ∧
        r.user_tag_id ∈ (s.user_tags.filter (fun t => t.user_id = userID)).map (fun t => t.id)))

/-- The rows written by `UpdateUserTag`. -/
def updatedRows (s : Storage) (tag : UserTag) : List UserTagRow :=
  s.user_tags.map
    (fun r => if r.id = tag.ID ∧ r.user_id = tag.UserID then { r with title := tag.Title } else r)

/-- ASCII lower-casing, used as SQL `lower` in the examples. -/
def asciiLower (x : String) : String := ⟨x.data.map Char.toLower⟩

/-- A database with two users: user 1 owns tags 1 "golang", 2 "devops" and 3 "rust", user 2 owns
tag 7 "Go"; entry 50 carries tag 2. -/
def demo : Storage :=
  { lower := asciiLower
    accepts := fun _ => true
    user_tags := [⟨1, 1, "golang"⟩, ⟨2, 1, "devops"⟩, ⟨3, 1, "rust"⟩, ⟨7, 2, "Go"⟩]
    entry_user_tags := [⟨50, 2⟩]
    user_tags_id_seq := 8 }

/-- A database where tag 2 of user 1 is carried by entries 50 and 51, and tag 1 by entry 50; user 2
owns tag 7, carried by entry 60. -/
def demoTagged : Storage :=
  { lower := asciiLower
    accepts := fun _ => true
    user_tags := [⟨1, 1, "golang"⟩, ⟨2, 1, "devops"⟩, ⟨7, 2, "Go"⟩]
    entry_user_tags := [⟨50, 1⟩, ⟨50, 2⟩, ⟨51, 2⟩, ⟨60, 7⟩]
    user_tags_id_seq := 8 }

/-! ## Lemmas on `SetEntryUserTags` and `EntryUserTagIDs` -/

/-- An accepted insert: the pair was not stored, the tag exists, the row is appended. -/
theorem insertEntryUserTag_ok (tx tx' : Tx) (E t : Int)
    (h : tx.insertEntryUserTag E t = .ok tx') :
    (⟨E, t⟩ : EntryUserTagRow) ∉ tx.current.entry_user_tags ∧
      t ∈ tx.current.user_tags.map (fun r => r.id) ∧
      tx' = { tx with current := { tx.current with
                entry_user_tags := tx.current.entry_user_tags ++ [⟨E, t⟩] } } := by
  unfold Tx.insertEntryUserTag at h
  by_cases hdup : (⟨E, t⟩ : EntryUserTagRow) ∈ tx.current.entry_user_tags
  · simp [hdup] at h
  · by_cases hfk : t ∈ tx.current.user_tags.map (fun r => r.id)
    · simp only [hdup, hfk, if_false, not_true_eq_false, Except.ok.injEq] at h
      exact ⟨hdup, hfk, h.symm⟩
    · simp [hdup, hfk] at h

/-- A completed insert loop has appended one row per ID, in order; the IDs are pairwise distinct,
none was associated with the entry before the loop and each is the ID of a stored tag. -/
theorem insertEntryUserTags_some (f : TxFaults) (E : Int) :
    ∀ (ids : List Int) (i : Nat) (tx tx' : Tx), insertEntryUserTags f E ids i tx = some tx' →
      tx' = { tx with current := { tx.current with
                entry_user_tags := tx.current.entry_user_tags ++
                  ids.map (fun t => (⟨E, t⟩ : EntryUserTagRow)) } } ∧
      ids.Nodup ∧
      ∀ t ∈ ids, (⟨E, t⟩ : EntryUserTagRow) ∉ tx.current.entry_user_tags ∧
        t ∈ tx.current.user_tags.map (fun r => r.id) := by
  intro ids
  induction ids with
  | nil =>
    intro i tx tx' h
    simp only [insertEntryUserTags, Option.some.injEq] at h
    subst h
    simp
  | cons t rest ih =>
    intro i tx tx' h
    simp only [insertEntryUserTags] at h
    by_cases hf : f.insertFails i = true
    · simp [hf] at h
    · simp only [hf, if_false] at h
      cases hi : tx.insertEntryUserTag E t with
      | error e => rw [hi] at h; simp at h
      | ok tx1 =>
        rw [hi] at h
        simp only at h
        obtain ⟨hdup, hfk, rfl⟩ := insertEntryUserTag_ok tx tx1 E t hi
        obtain ⟨h1, h2, h3⟩ := ih _ _ _ h
        refine ⟨?_, ?_, ?_⟩
        · rw [h1]; simp
        · refine List.nodup_cons.mpr ⟨?_, h2⟩
          intro hmem
          have := (h3 t hmem).1
          simp at this
        · intro t' ht'
          rcases List.mem_cons.mp ht' with rfl | ht'
          · exact ⟨hdup, hfk⟩
          · have := h3 t' ht'
            simp only [List.mem_append, not_or] at this
            exact ⟨this.1.1, this.2⟩

/-- A successful `SetEntryUserTags` leaves the kept associations followed by one row per element
of `tagIDs`; the elements are pairwise distinct and each is the ID of a stored tag. -/
theorem SetEntryUserTags_ok (s : Storage) (f : TxFaults) (U E : Int) (tagIDs : List Int)
    (h : (s.SetEntryUserTags f U E tagIDs).1 = none) :
    (s.SetEntryUserTags f U E tagIDs).2 =
        { s with entry_user_tags := keptEntryUserTags s U E ++
            tagIDs.map (fun t => (⟨E, t⟩ : EntryUserTagRow)) } ∧
      tagIDs.Nodup ∧
      ∀ t ∈ tagIDs, (⟨E, t⟩ : EntryUserTagRow) ∉ keptEntryUserTags s U E ∧
        t ∈ s.user_tags.map (fun r => r.id) := by
  unfold Storage.SetEntryUserTags at h ⊢
  by_cases hb : f.beginFails = true
  · simp [hb] at h
  · by_cases hc : f.clearFails = true
    · simp [hb, hc] at h
    · simp only [hb, hc, if_false] at h ⊢
      cases hins : insertEntryUserTags f E tagIDs 0
          (Tx.clearEntryUserTags (Storage.Begin s) E U) with
      | none => simp [hins] at h
      | some tx' =>
        simp only [hins] at h ⊢
        by_cases hcm : f.commitFails = true
        · simp [Tx.Commit, hcm] at h
        · simp only [Tx.Commit, hcm, if_false]
          obtain ⟨h1, h2, h3⟩ := insertEntryUserTags_some f E _ _ _ _ hins
          refine ⟨?_, h2, ?_⟩
          · rw [h1]; rfl
          · intro t ht
            exact h3 t ht

/-- Every error return of `SetEntryUserTags` leaves the database as it was. -/
theorem SetEntryUserTags_error (s : Storage) (f : TxFaults) (U E : Int) (tagIDs : List Int)
    (h : (s.SetEntryUserTags f U E tagIDs).1 ≠ none) :
    (s.SetEntryUserTags f U E tagIDs).2 = s := by
  unfold Storage.SetEntryUserTags at h ⊢
  by_cases hb : f.beginFails = true
  · simp [hb]
  · by_cases hc : f.clearFails = true
    · simp [hb, hc, Tx.Rollback, Storage.Begin]
    · simp only [hb, hc, if_false] at h ⊢
      cases hins : insertEntryUserTags f E tagIDs 0
          (Tx.clearEntryUserTags (Storage.Begin s) E U) with
      | none => simp [Tx.Rollback, Tx.clearEntryUserTags, Storage.Begin]
      | some tx' =>
        simp only [hins] at h ⊢
        by_cases hcm : f.commitFails = true
        · obtain ⟨h1, -, -⟩ := insertEntryUserTags_some f E _ _ _ _ hins
          simp only [Tx.Commit, hcm, if_true]
          rw [h1]
          simp [Tx.clearEntryUserTags, Storage.Begin]
        · simp [Tx.Commit, hcm] at h

/-- Under the primary key of `user_tags`, at most one row has ID `t`; it is selected when its owner
is `U`. -/
theorem joinRows_aux (tags : List UserTagRow) (hpk : (tags.map (fun r => r.id)).Nodup)
    (U t : Int) :
    (tags.filter (fun ut => ut.id = t ∧ ut.user_id = U)).map (fun _ => t) =
      if tags.any (fun r => r.user_id = U ∧ r.id = t) then [t] else [] := by
  induction tags with
  | nil => simp
  | cons r rest ih =>
    have hnd := List.nodup_cons.mp (by simpa using hpk : (r.id :: rest.map (fun r => r.id)).Nodup)
    have ih := ih hnd.2
    by_cases hr : r.id = t ∧ r.user_id = U
    · have hrest : rest.filter (fun ut => ut.id = t ∧ ut.user_id = U) = [] := by
        rw [List.filter_eq_nil_iff]
        intro a ha hp
        simp only [decide_eq_true_eq] at hp
        apply hnd.1
        rw [hr.1, ← hp.1]
        exact List.mem_map_of_mem _ ha
      have hd : decide (r.id = t ∧ r.user_id = U) = true := by simpa using hr
      have hd' : decide (r.user_id = U ∧ r.id = t) = true := by simpa using ⟨hr.2, hr.1⟩
      rw [List.filter_cons, hd, List.any_cons, hd', if_pos rfl, hrest]
      simp
    · have hf : decide (r.id = t ∧ r.user_id = U) = false := by simpa using hr
      have hf' : decide (r.user_id = U ∧ r.id = t) = false := by
        simpa using fun h1 h2 => hr ⟨h2, h1⟩
      rw [List.filter_cons, hf, List.any_cons, hf']
      simpa using ih

/-- Under the primary key of `user_tags`, the join of `EntryUserTagIDs` yields the association
`(E, t)` once when `t` is a tag of user `U`, and not at all otherwise. -/
theorem joinRows_eq (tags : List UserTagRow) (hpk : (tags.map (fun r => r.id)).Nodup)
    (U E t : Int) :
    (tags.filter (fun ut => ut.id = t ∧ ut.user_id = U ∧ E = E)).map (fun _ => t) =
      if tags.any (fun r => r.user_id = U ∧ r.id = t) then [t] else [] := by
  have := joinRows_aux tags hpk U t
  simpa only [eq_self_iff_true, and_true] using this

/-- Reading the tags of entry `E` as user `U` right after a successful replace by `ids`: the IDs of
`ids` that are tags of `U`, in the order of `ids`. -/
theorem EntryUserTagIDs_replaced (s : Storage) (U E : Int) (ids : List Int)
    (hpk : (s.user_tags.map (fun r => r.id)).Nodup) :
    Storage.EntryUserTagIDs
        { s with entry_user_tags := keptEntryUserTags s U E ++
            ids.map (fun t => (⟨E, t⟩ : EntryUserTagRow)) } U E =
      .ok (ids.filter (fun t => s.UserTagIDExists U t)) := by
  unfold Storage.EntryUserTagIDs
  simp only [List.flatMap_append]
  have hkept : (keptEntryUserTags s U E).flatMap (fun eut =>
      (s.user_tags.filter
        (fun ut => ut.id = eut.user_tag_id ∧ ut.user_id = U ∧ eut.entry_id = E)).map
        (fun _ => eut.user_tag_id)) = [] := by
    rw [List.flatMap_eq_nil_iff]
    intro x hx
    rw [List.map_eq_nil_iff, List.filter_eq_nil_iff]
    intro ut hut hp
    simp only [decide_eq_true_eq] at hp
    unfold keptEntryUserTags at hx
    rw [List.mem_filter] at hx
    have hx2 := hx.2
    simp only [decide_eq_true_eq] at hx2
    apply hx2
    refine ⟨hp.2.2, ?_⟩
    rw [List.mem_map]
    exact ⟨ut, List.mem_filter.mpr ⟨hut, by simpa using hp.2.1⟩, hp.1⟩
  rw [hkept, List.nil_append]
  congr 1
  induction ids with
  | nil => simp
  | cons t rest ih =>
    rw [List.map_cons, List.flatMap_cons, ih, List.filter_cons]
    have := joinRows_eq s.user_tags hpk U E t
    simp only at this ⊢
    rw [this]
    unfold Storage.UserTagIDExists
    split <;> simp

/-- The insert loop goes through when no driver call fails, the IDs are pairwise distinct, none of
them is associated with the entry yet and each is the ID of a stored tag. -/
theorem insertEntryUserTags_succeeds (f : TxFaults) (hf : ∀ k, f.insertFails k = false) (E : Int) :
    ∀ (ids : List Int) (i : Nat) (tx : Tx), ids.Nodup →
      (∀ t ∈ ids, (⟨E, t⟩ : EntryUserTagRow) ∉ tx.current.entry_user_tags ∧
        t ∈ tx.current.user_tags.map (fun r => r.id)) →
      ∃ tx', insertEntryUserTags f E ids i tx = some tx' := by
  intro ids
  induction ids with
  | nil => intro i tx _ _; exact ⟨tx, rfl⟩
  | cons t rest ih =>
    intro i tx hnd hall
    have hnd' := List.nodup_cons.mp hnd
    have ht := hall t (List.mem_cons_self _ _)
    simp only [insertEntryUserTags, hf i, Bool.false_eq_true, if_false]
    simp only [Tx.insertEntryUserTag, ht.1, ht.2, if_false, not_true_eq_false]
    apply ih _ _ hnd'.2
    intro t' ht'
    have h' := hall t' (List.mem_cons_of_mem _ ht')
    refine ⟨?_, h'.2⟩
    simp only [List.mem_append, List.mem_singleton, EntryUserTagRow.mk.injEq, true_and, not_or]
    refine ⟨h'.1, ?_⟩
    rintro rfl
    exact hnd'.1 ht'

/-- Without driver failures, replacing the tags of an entry by pairwise distinct tags of the
calling user succeeds. -/
theorem SetEntryUserTags_succeeds (s : Storage) (U E : Int) (tagIDs : List Int)
    (hnd : tagIDs.Nodup) (hown : ∀ t ∈ tagIDs, s.UserTagIDExists U t = true) :
    (s.SetEntryUserTags TxFaults.none U E tagIDs).1 = none := by
  have hins := insertEntryUserTags_succeeds TxFaults.none (fun _ => rfl) E tagIDs 0
    (Tx.clearEntryUserTags (Storage.Begin s) E U) hnd (by
      intro t ht
      have ho := hown t ht
      simp only [Storage.UserTagIDExists, List.any_eq_true, decide_eq_true_eq] at ho
      obtain ⟨r, hr, hru, hrt⟩ := ho
      constructor
      · intro hmem
        simp only [Tx.clearEntryUserTags, Storage.Begin, List.mem_filter,
          decide_eq_true_eq] at hmem
        apply hmem.2
        refine ⟨trivial, ?_⟩
        rw [List.mem_map]
        exact ⟨r, List.mem_filter.mpr ⟨hr, by simpa using hru⟩, hrt⟩
      · simp only [Tx.clearEntryUserTags, Storage.Begin, List.mem_map]
        exact ⟨r, hr, hrt⟩)
  obtain ⟨tx', htx'⟩ := hins
  unfold Storage.SetEntryUserTags
  have hb : TxFaults.none.beginFails = false := rfl
  have hc : TxFaults.none.clearFails = false := rfl
  have hcm : TxFaults.none.commitFails = false := rfl
  simp only [hb, hc, hcm, htx', Tx.Commit, Bool.false_eq_true, if_false]

/-- A tag ID of `tagIDs` that no stored tag carries makes `SetEntryUserTags` fail. -/
theorem SetEntryUserTags_missing_tag (s : Storage) (f : TxFaults) (U E : Int) (tagIDs : List Int)
    (t : Int) (ht : t ∈ tagIDs) (hmiss : t ∉ s.user_tags.map (fun r => r.id)) :
    (s.SetEntryUserTags f U E tagIDs).1 ≠ none := by
  intro h
  exact hmiss ((SetEntryUserTags_ok s f U E tagIDs h).2.2 t ht).2

/-- A failing clearing statement makes `SetEntryUserTags` fail. -/
theorem SetEntryUserTags_clearFails (s : Storage) (f : TxFaults) (U E : Int) (tagIDs : List Int)
    (hc : f.clearFails = true) : (s.SetEntryUserTags f U E tagIDs).1 ≠ none := by
  unfold Storage.SetEntryUserTags
  by_cases hb : f.beginFails = true <;> simp [hb, hc]

/-- A list with a repeated ID makes `SetEntryUserTags` fail: the second insert of the pair is
rejected. -/
theorem SetEntryUserTags_repeated (s : Storage) (f : TxFaults) (U E : Int) (tagIDs : List Int)
    (hrep : ¬ tagIDs.Nodup) : (s.SetEntryUserTags f U E tagIDs).1 ≠ none := by
  intro h
  exact hrep (SetEntryUserTags_ok s f U E tagIDs h).2.1

/-- Without driver failures, two replaces in a row by lists of pairwise distinct tags of the
calling user both succeed. -/
theorem SetEntryUserTags_twice_succeeds (s : Storage) (U E : Int) (a b : List Int)
    (ha : a.Nodup) (hb : b.Nodup) (hao : ∀ t ∈ a, s.UserTagIDExists U t = true)
    (hbo : ∀ t ∈ b, s.UserTagIDExists U t = true) :
    (s.SetEntryUserTags TxFaults.none U E a).1 = none ∧
      ((s.SetEntryUserTags TxFaults.none U E a).2.SetEntryUserTags TxFaults.none U E b).1
        = none := by
  have h1 := SetEntryUserTags_succeeds s U E a ha hao
  refine ⟨h1, ?_⟩
  apply SetEntryUserTags_succeeds _ U E b hb
  intro t ht
  have hs := (SetEntryUserTags_ok s TxFaults.none U E a h1).1
  rw [hs]
  exact hbo t ht

/-! ## Lemmas on the tag lifecycle -/

/-- Under the primary key of `user_tags`, two stored rows with the same ID are the same row. -/
theorem row_eq_of_id_eq (s : Storage) (hpk : (s.user_tags.map (fun r => r.id)).Nodup)
    (a b : UserTagRow) (ha : a ∈ s.user_tags) (hb : b ∈ s.user_tags) (h : a.id = b.id) : a = b :=
  List.inj_on_of_nodup_map hpk ha hb h

/-- What `UserTagByID` finds is a stored row of that user with that ID. -/
theorem UserTagByID_some (s : Storage) (U tagID : Int) (tag : UserTag)
    (h : s.UserTagByID U tagID = .ok (some tag)) :
    ∃ r ∈ s.user_tags, r.user_id = U ∧ r.id = tagID ∧ tag = r.scan := by
  unfold Storage.UserTagByID at h
  cases hf : s.user_tags.find? (fun r => r.user_id = U ∧ r.id = tagID) with
  | none => rw [hf] at h; simp at h
  | some r =>
    rw [hf] at h
    simp only [Except.ok.injEq, Option.some.injEq] at h
    have hp := List.find?_some hf
    simp only [decide_eq_true_eq] at hp
    exact ⟨r, List.mem_of_find?_eq_some hf, hp.1, hp.2, h.symm⟩

/-- `UserTagByID` finds every stored row when asked for its owner and ID. -/
theorem UserTagByID_of_mem (s : Storage) (hpk : (s.user_tags.map (fun r => r.id)).Nodup)
    (t : UserTagRow) (ht : t ∈ s.user_tags) :
    s.UserTagByID t.user_id t.id = .ok (some t.scan) := by
  unfold Storage.UserTagByID
  cases hf : s.user_tags.find? (fun r => r.user_id = t.user_id ∧ r.id = t.id) with
  | none =>
    rw [List.find?_eq_none] at hf
    have := hf t ht
    simp at this
  | some r =>
    have hp := List.find?_some hf
    simp only [decide_eq_true_eq] at hp
    have := row_eq_of_id_eq s hpk r t (List.mem_of_find?_eq_some hf) ht hp.2
    rw [this]

/-- Under the primary key, writing back the title a tag already has changes no row. -/
theorem updatedRows_same_title (s : Storage) (hpk : (s.user_tags.map (fun r => r.id)).Nodup)
    (t : UserTagRow) (ht : t ∈ s.user_tags) (cnt : Option Int) :
    updatedRows s ⟨t.id, t.user_id, t.title, cnt⟩ = s.user_tags := by
  unfold updatedRows
  conv_rhs => rw [← List.map_id s.user_tags]
  apply List.map_congr_left
  intro r hr
  by_cases hm : r.id = t.id ∧ r.user_id = t.user_id
  · have := row_eq_of_id_eq s hpk r t hr ht hm.1
    subst this
    simp
  · simp only [hm, if_false, id]

/-- The state after `UpdateUserTag`: the updated rows when the constraints accept them, the old
state otherwise. -/
theorem UpdateUserTag_snd (s : Storage) (tag : UserTag) :
    (s.UpdateUserTag tag).2 = s ∨
      (s.UpdateUserTag tag).2 = { s with user_tags := updatedRows s tag } := by
  unfold Storage.UpdateUserTag updatedRows
  by_cases h : s.accepts (s.user_tags.map (fun r =>
      if r.id = tag.ID ∧ r.user_id = tag.UserID then { r with title := tag.Title } else r)) = true
  · right; rw [if_pos h]
  · left; rw [if_neg h]

/-- I1 survives an update of the title of tag `(tagID, U)` to a title that no other tag of `U`
has under `lower`. -/
theorem updatedRows_I1 (s : Storage) (hpk : (s.user_tags.map (fun r => r.id)).Nodup)
    (hI1 : s.I1) (tag : UserTag)
    (hfree : ∀ b ∈ s.user_tags, b.user_id = tag.UserID → b.id ≠ tag.ID →
      s.lower b.title ≠ s.lower tag.Title) :
    Storage.I1 { s with user_tags := updatedRows s tag } := by
  unfold Storage.I1 updatedRows at *
  simp only
  rw [List.pairwise_map]
  have hids : s.user_tags.Pairwise (fun a b => a.id ≠ b.id) := by
    have := hpk
    unfold List.Nodup at this
    rwa [List.pairwise_map] at this
  refine (hI1.and hids).imp_of_mem ?_
  intro a b ha hb hab
  obtain ⟨hR, hne⟩ := hab
  by_cases hma : a.id = tag.ID ∧ a.user_id = tag.UserID
  · by_cases hmb : b.id = tag.ID ∧ b.user_id = tag.UserID
    · exact absurd (hma.1.trans hmb.1.symm) hne
    · simp only [hma, hmb, and_self, if_true, if_false]
      intro hu
      have hbu : b.user_id = tag.UserID := by rw [← hu]
      have hbi : b.id ≠ tag.ID := fun h => hmb ⟨h, hbu⟩
      exact fun h => hfree b hb hbu hbi h.symm
  · by_cases hmb : b.id = tag.ID ∧ b.user_id = tag.UserID
    · simp only [hma, hmb, and_self, if_true, if_false]
      intro hu
      have hau : a.user_id = tag.UserID := by rw [hu]
      have hai : a.id ≠ tag.ID := fun h => hma ⟨h, hau⟩
      exact hfree a ha hau hai
    · simp only [hma, hmb, if_false]
      exact hR

/-- Under I1, a stored tag has no other tag of its user with its title under `lower`. -/
theorem I1_no_other (s : Storage) (hI1 : s.I1) (t : UserTagRow) (ht : t ∈ s.user_tags) :
    ∀ b ∈ s.user_tags, b.user_id = t.user_id → b.id ≠ t.id →
      s.lower b.title ≠ s.lower t.title := by
  intro b hb hu hi
  have hsymm : Symmetric
      (fun a b : UserTagRow => a.user_id = b.user_id → s.lower a.title ≠ s.lower b.title) :=
    fun x y h hyx => (h hyx.symm).symm
  have hne : b ≠ t := fun h => hi (by rw [h])
  exact List.Pairwise.forall hsymm hI1 hb ht hne hu

/-- `AnotherUserTagExists` is false for the current title of a stored tag, under I1. -/
theorem AnotherUserTagExists_own_title (s : Storage) (hI1 : s.I1) (t : UserTagRow)
    (ht : t ∈ s.user_tags) : s.AnotherUserTagExists t.user_id t.id t.title = false := by
  unfold Storage.AnotherUserTagExists
  rw [List.any_eq_false]
  intro b hb
  simp only [decide_eq_true_eq, not_and]
  intro hu hi
  exact I1_no_other s hI1 t ht b hb hu hi

/-- The state after `CreateUserTag`: one more row when the constraints accept it, the old state
otherwise. -/
theorem CreateUserTag_eq (s : Storage) (U : Int) (req : UserTagCreationRequest) :
    s.CreateUserTag U req = (.error "store: unable to create user tag", s) ∨
      s.CreateUserTag U req =
        (.ok ⟨s.user_tags_id_seq, U, req.Title, none⟩,
          { s with user_tags := s.user_tags ++ [⟨s.user_tags_id_seq, U, req.Title⟩],
                   user_tags_id_seq := s.user_tags_id_seq + 1 }) := by
  unfold Storage.CreateUserTag
  by_cases h : s.accepts (s.user_tags ++ [⟨s.user_tags_id_seq, U, req.Title⟩]) = true
  · right; rw [if_pos h]; rfl
  · left; rw [if_neg h]

/-- The `createUserTag` flow keeps I1. -/
theorem createUserTag_I1 (s : Storage) (hI1 : s.I1) (U : Int)
    (body : Except String UserTagCreationRequest) : (api.createUserTag s U body).2.I1 := by
  cases body with
  | error e => exact hI1
  | ok req =>
    by_cases ht : req.Title = ""
    · simpa [api.createUserTag, ValidateUserTagCreation, ht] using hI1
    · cases he : s.UserTagTitleExists U req.Title with
      | true => simpa [api.createUserTag, ValidateUserTagCreation, ht, he] using hI1
      | false =>
        rcases CreateUserTag_eq s U req with h | h
        · simpa [api.createUserTag, ValidateUserTagCreation, ht, he, h] using hI1
        · simp only [api.createUserTag, ValidateUserTagCreation, ht, he, h, if_false,
            Bool.false_eq_true, Storage.I1]
          rw [List.pairwise_append]
          refine ⟨hI1, List.pairwise_singleton _ _, ?_⟩
          intro a ha b hb
          rw [List.mem_singleton] at hb
          subst hb
          simp only
          intro hu hl
          have : s.UserTagTitleExists U req.Title = true := by
            unfold Storage.UserTagTitleExists
            rw [List.any_eq_true]
            exact ⟨a, ha, by simpa using ⟨hu, hl⟩⟩
          rw [he] at this
          exact absurd this (by simp)

/-- The last step of the `updateUserTag` flow: whatever holds of the old state and of the state
with the updated rows holds of the state the handler leaves. -/
theorem updateUserTag_write (s : Storage) (tag : UserTag) (P : Storage → Prop) (h0 : P s)
    (h1 : P { s with user_tags := updatedRows s tag }) :
    P (match s.UpdateUserTag tag with
        | (some err, store') => (api.Response.ServerError err, store')
        | (none, store') => (api.Response.Created tag, store')).2 := by
  have h2 := UpdateUserTag_snd s tag
  cases hu : s.UpdateUserTag tag with
  | mk e s' =>
    rw [hu] at h2
    simp only at h2
    cases e with
    | none => rcases h2 with rfl | rfl <;> assumption
    | some err => rcases h2 with rfl | rfl <;> assumption

/-- The `updateUserTag` flow keeps I1. -/
theorem updateUserTag_I1 (s : Storage) (hpk : (s.user_tags.map (fun r => r.id)).Nodup)
    (hI1 : s.I1) (U tagID : Int) (body : Except String UserTagModificationRequest) :
    (api.updateUserTag s U tagID body).2.I1 := by
  unfold api.updateUserTag
  cases hby : s.UserTagByID U tagID with
  | error e => exact hI1
  | ok found =>
    cases found with
    | none => exact hI1
    | some tag =>
      obtain ⟨r, hr, hru, hri, rfl⟩ := UserTagByID_some s U tagID tag hby
      cases body with
      | error e => exact hI1
      | ok req =>
        obtain ⟨title⟩ := req
        cases title with
        | none =>
          simp only [ValidateUserTagModification, UserTagModificationRequest.Patch]
          refine updateUserTag_write s r.scan Storage.I1 hI1 ?_
          have hrows := updatedRows_same_title s hpk r hr none
          simp only [UserTagRow.scan] at hrows ⊢
          rw [hrows]
          exact hI1
        | some title =>
          by_cases ht : title = ""
          · simpa [ValidateUserTagModification, ht] using hI1
          · cases he : s.AnotherUserTagExists U r.scan.ID title with
            | true => simpa [ValidateUserTagModification, ht, he] using hI1
            | false =>
              simp only [ValidateUserTagModification, UserTagModificationRequest.Patch, ht, he,
                if_false, Bool.false_eq_true]
              have hfree : ∀ b ∈ s.user_tags, b.user_id = U → b.id ≠ r.id →
                  s.lower b.title ≠ s.lower title := by
                intro b hb hbu hbi hl
                have : s.AnotherUserTagExists U r.scan.ID title = true := by
                  unfold Storage.AnotherUserTagExists
                  rw [List.any_eq_true]
                  exact ⟨b, hb, by simpa [UserTagRow.scan] using ⟨hbu, hbi, hl⟩⟩
                rw [he] at this
                exact absurd this (by simp)
              refine updateUserTag_write s { r.scan with Title := title } Storage.I1 hI1 ?_
              exact updatedRows_I1 s hpk hI1 { r.scan with Title := title }
                (by simpa [UserTagRow.scan, hru] using hfree)

/-- The `createUserTag` flow keeps the primary key of `user_tags` and its sequence ahead of the
stored IDs. -/
theorem createUserTag_TagIDsFresh (s : Storage) (h : s.TagIDsFresh) (U : Int)
    (body : Except String UserTagCreationRequest) :
    (api.createUserTag s U body).2.TagIDsFresh := by
  cases body with
  | error e => exact h
  | ok req =>
    by_cases ht : req.Title = ""
    · simpa [api.createUserTag, ValidateUserTagCreation, ht] using h
    · cases he : s.UserTagTitleExists U req.Title with
      | true => simpa [api.createUserTag, ValidateUserTagCreation, ht, he] using h
      | false =>
        rcases CreateUserTag_eq s U req with hc | hc
        · simpa [api.createUserTag, ValidateUserTagCreation, ht, he, hc] using h
        · simp only [api.createUserTag, ValidateUserTagCreation, ht, he, hc, if_false,
            Bool.false_eq_true, Storage.TagIDsFresh]
          obtain ⟨hnd, hlt⟩ := h
          constructor
          · rw [List.map_append, List.nodup_append]
            refine ⟨hnd, by simp, ?_⟩
            intro x hx hx'
            simp only [List.map_cons, List.map_nil, List.mem_singleton] at hx'
            rw [List.mem_map] at hx
            obtain ⟨r, hr, rfl⟩ := hx
            have := hlt r hr
            omega
          · intro t htm
            rcases List.mem_append.mp htm with htm | htm
            · have := hlt t htm; omega
            · rw [List.mem_singleton] at htm; subst htm; simp

/-- The rows written by `UpdateUserTag` carry the IDs of the old rows, in the same order. -/
theorem updatedRows_ids (s : Storage) (tag : UserTag) :
    (updatedRows s tag).map (fun r => r.id) = s.user_tags.map (fun r => r.id) := by
  unfold updatedRows
  rw [List.map_map]
  apply List.map_congr_left
  intro r _
  by_cases hm : r.id = tag.ID ∧ r.user_id = tag.UserID <;> simp [hm]

/-- The `updateUserTag` flow keeps the primary key of `user_tags` and its sequence ahead of the
stored IDs. -/
theorem updateUserTag_TagIDsFresh (s : Storage) (h : s.TagIDsFresh) (U tagID : Int)
    (body : Except String UserTagModificationRequest) :
    (api.updateUserTag s U tagID body).2.TagIDsFresh := by
  have hupd : ∀ tag : UserTag,
      Storage.TagIDsFresh { s with user_tags := updatedRows s tag } := by
    intro tag
    obtain ⟨hnd, hlt⟩ := h
    refine ⟨by simpa only [updatedRows_ids] using hnd, ?_⟩
    intro t ht
    have hmem : t.id ∈ (updatedRows s tag).map (fun r => r.id) := List.mem_map_of_mem _ ht
    rw [updatedRows_ids, List.mem_map] at hmem
    obtain ⟨r, hr, hrt⟩ := hmem
    have := hlt r hr
    simp only
    omega
  unfold api.updateUserTag
  cases hby : s.UserTagByID U tagID with
  | error e => exact h
  | ok found =>
    cases found with
    | none => exact h
    | some tag =>
      cases body with
      | error e => exact h
      | ok req =>
        obtain ⟨title⟩ := req
        cases title with
        | none =>
          simp only [ValidateUserTagModification, UserTagModificationRequest.Patch]
          exact updateUserTag_write s tag Storage.TagIDsFresh h (hupd _)
        | some title =>
          by_cases ht : title = ""
          · simpa [ValidateUserTagModification, ht] using h
          · cases he : s.AnotherUserTagExists U tag.ID title with
            | true => simpa [ValidateUserTagModification, ht, he] using h
            | false =>
              simp only [ValidateUserTagModification, UserTagModificationRequest.Patch, ht, he,
                if_false, Bool.false_eq_true]
              exact updateUserTag_write s _ Storage.TagIDsFresh h (hupd _)

/-! ## Lemmas on `UserTagByID` misses and on `RemoveUserTag` -/

/-- `UserTagByID` finds nothing when the user has no tag with that ID. -/
theorem UserTagByID_none (s : Storage) (U x : Int) (h : s.UserTagIDExists U x = false) :
    s.UserTagByID U x = .ok none := by
  unfold Storage.UserTagByID
  have hf : s.user_tags.find? (fun r => r.user_id = U ∧ r.id = x) = none := by
    rw [List.find?_eq_none]
    intro r hr
    unfold Storage.UserTagIDExists at h
    rw [List.any_eq_false] at h
    exact h r hr
  rw [hf]

/-- Under the primary key of `user_tags`, a tag ID stored for another user is not a tag of `U`. -/
theorem UserTagIDExists_foreign (s : Storage) (hpk : (s.user_tags.map (fun r => r.id)).Nodup)
    (U x : Int) (r : UserTagRow) (hr : r ∈ s.user_tags) (hid : r.id = x) (hV : r.user_id ≠ U) :
    s.UserTagIDExists U x = false := by
  unfold Storage.UserTagIDExists
  rw [List.any_eq_false]
  intro a ha hp
  simp only [decide_eq_true_eq] at hp
  have := row_eq_of_id_eq s hpk a r ha hr (hp.2.trans hid.symm)
  subst this
  exact hV hp.1

/-- A tag ID that no row carries is not a tag of `U`. -/
theorem UserTagIDExists_missing (s : Storage) (U x : Int)
    (hx : x ∉ s.user_tags.map (fun r => r.id)) : s.UserTagIDExists U x = false := by
  unfold Storage.UserTagIDExists
  rw [List.any_eq_false]
  intro a ha hp
  simp only [decide_eq_true_eq] at hp
  exact hx (List.mem_map.mpr ⟨a, ha, hp.2⟩)

/-- The `DELETE` of `RemoveUserTag` affects no row exactly when the user has no tag with that
ID. -/
theorem deleteUserTag_count (s : Storage) (U x : Int) :
    (s.deleteUserTag x U).1 = 0 ↔ s.UserTagIDExists U x = false := by
  unfold Storage.deleteUserTag Storage.UserTagIDExists
  simp only [List.length_eq_zero, List.filter_eq_nil_iff, List.any_eq_false, decide_eq_true_eq]
  constructor
  · intro h r hr hp; exact h r hr ⟨hp.2, hp.1⟩
  · intro h r hr hp; exact h r hr ⟨hp.2, hp.1⟩

/-- A `DELETE` that matches no tag row leaves the database as it was. -/
theorem deleteUserTag_miss (s : Storage) (U x : Int) (h : s.UserTagIDExists U x = false) :
    (s.deleteUserTag x U).2 = s := by
  have hnone : s.user_tags.filter (fun r => r.id = x ∧ r.user_id = U) = [] := by
    have := (deleteUserTag_count s U x).mpr h
    unfold Storage.deleteUserTag at this
    simpa only [List.length_eq_zero] using this
  have hall : s.user_tags.filter (fun r => ¬ (r.id = x ∧ r.user_id = U)) = s.user_tags := by
    rw [List.filter_eq_self]
    intro r hr
    rw [List.filter_eq_nil_iff] at hnone
    have := hnone r hr
    rw [decide_eq_true_eq]
    exact fun hp => this (decide_eq_true hp)
  unfold Storage.deleteUserTag
  simp only [hnone, hall, List.map_nil, List.not_mem_nil, not_false_eq_true, decide_True,
    List.filter_true]

/-- After the `DELETE` of `RemoveUserTag`, the user has no tag with that ID. -/
theorem deleteUserTag_gone (s : Storage) (U x : Int) :
    (s.deleteUserTag x U).2.UserTagIDExists U x = false := by
  unfold Storage.deleteUserTag Storage.UserTagIDExists
  rw [List.any_eq_false]
  intro r hr hp
  simp only [List.mem_filter, decide_eq_true_eq] at hr hp
  exact hr.2 ⟨hp.2, hp.1⟩

/-- Under the primary key of `user_tags`, the `DELETE` of `RemoveUserTag` removes the one row of
the tag. -/
theorem deleteUserTag_erase (s : Storage) (hpk : (s.user_tags.map (fun r => r.id)).Nodup)
    (r : UserTagRow) (hr : r ∈ s.user_tags) :
    (s.deleteUserTag r.id r.user_id).2.user_tags = s.user_tags.erase r := by
  rw [List.Nodup.erase_eq_filter (List.Nodup.of_map _ hpk)]
  unfold Storage.deleteUserTag
  simp only
  apply List.filter_congr
  intro a ha
  by_cases hm : a.id = r.id ∧ a.user_id = r.user_id
  · have := row_eq_of_id_eq s hpk a r ha hr hm.1
    subst this
    simp
  · have hne : a ≠ r := fun h => hm (by rw [h]; exact ⟨rfl, rfl⟩)
    simp [hm, hne]

/-- When the `DELETE` of `RemoveUserTag` removes a tag row, the associations left are those that
do not reference the tag. -/
theorem deleteUserTag_cascade (s : Storage) (U x : Int) (h : s.UserTagIDExists U x = true) :
    (s.deleteUserTag x U).2.entry_user_tags =
      s.entry_user_tags.filter (fun a => a.user_tag_id ≠ x) := by
  unfold Storage.deleteUserTag
  simp only
  apply List.filter_congr
  intro a _
  have hmem : a.user_tag_id ∈
      (s.user_tags.filter (fun r => r.id = x ∧ r.user_id = U)).map (fun r => r.id) ↔
      a.user_tag_id = x := by
    rw [List.mem_map]
    constructor
    · rintro ⟨r, hr, hra⟩
      rw [List.mem_filter] at hr
      have := hr.2
      simp only [decide_eq_true_eq] at this
      rw [← hra]; exact this.1
    · intro ha
      unfold Storage.UserTagIDExists at h
      rw [List.any_eq_true] at h
      obtain ⟨r, hr, hp⟩ := h
      simp only [decide_eq_true_eq] at hp
      exact ⟨r, List.mem_filter.mpr ⟨hr, by simpa using ⟨hp.2, hp.1⟩⟩, hp.2.trans ha.symm⟩
  exact decide_eq_decide.mpr (not_congr hmem)

/-- `RemoveUserTag` returns the state of its `DELETE`, and an error exactly when the user has no
tag with that ID. -/
theorem RemoveUserTag_eq (s : Storage) (U x : Int) :
    (s.RemoveUserTag U x).2 = (s.deleteUserTag x U).2 ∧
      ((s.RemoveUserTag U x).1 ≠ none ↔ s.UserTagIDExists U x = false) := by
  unfold Storage.RemoveUserTag
  by_cases hc : (s.deleteUserTag x U).1 = 0
  · have := (deleteUserTag_count s U x).mp hc
    simp [hc, this]
  · have : ¬ s.UserTagIDExists U x = false := fun h => hc ((deleteUserTag_count s U x).mpr h)
    simp [hc, this]

/-- `EntryUserTagIDs(U, E)` returns only IDs of tags of `U`. -/
theorem EntryUserTagIDs_owned (s : Storage) (U E : Int) (ids : List Int)
    (h : s.EntryUserTagIDs U E = .ok ids) : ∀ t ∈ ids, s.UserTagIDExists U t = true := by
  unfold Storage.EntryUserTagIDs at h
  simp only [Except.ok.injEq] at h
  subst h
  intro t ht
  rw [List.mem_flatMap] at ht
  obtain ⟨a, _, hta⟩ := ht
  rw [List.mem_map] at hta
  obtain ⟨r, hr, hrt⟩ := hta
  rw [List.mem_filter] at hr
  have hp := hr.2
  simp only [decide_eq_true_eq] at hp
  unfold Storage.UserTagIDExists
  rw [List.any_eq_true]
  exact ⟨r, hr.1, by simpa using ⟨hp.2.1, hp.1.trans hrt⟩⟩

/-! ## The claims -/

/-- C1: when `SetEntryUserTags(U, E, tagIDs)` succeeds (whatever `tagIDs` holds and whatever
associations `E` had before), `EntryUserTagIDs(U, E)` afterwards returns exactly the IDs of
`tagIDs` that are tags owned by `U` (ownership is the same before and after the call), each
exactly once. -/
theorem C1_SetEntryUserTags_read_back (s : Storage) (f : TxFaults) (U E : Int)
    (tagIDs : List Int) (hpk : (s.user_tags.map (fun r => r.id)).Nodup)
    (hok : (s.SetEntryUserTags f U E tagIDs).1 = none) :
    ∃ ids, (s.SetEntryUserTags f U E tagIDs).2.EntryUserTagIDs U E = .ok ids ∧
      (∀ t, t ∈ ids ↔ t ∈ tagIDs ∧ s.UserTagIDExists U t = true) ∧
      (∀ t, t ∈ ids → ids.count t = 1) ∧
      (∀ t, (s.SetEntryUserTags f U E tagIDs).2.UserTagIDExists U t = s.UserTagIDExists U t) := by
  obtain ⟨hs, hnd, -⟩ := SetEntryUserTags_ok s f U E tagIDs hok
  refine ⟨tagIDs.filter (fun t => s.UserTagIDExists U t), ?_, ?_, ?_, ?_⟩
  · rw [hs]; exact EntryUserTagIDs_replaced s U E tagIDs hpk
  · intro t; simp [List.mem_filter]
  · intro t ht
    exact List.count_eq_one_of_mem (hnd.filter _) ht
  · intro t; rw [hs]; rfl

/-- C1, evaluated: user 1 replaces the tags of entry 50 (which carried tag 2) by `[1, 7, 3]`, where
7 is a tag of user 2. -/
theorem C1_SetEntryUserTags_read_back_witness :
    (demo.user_tags.map (fun r => r.id)).Nodup ∧
    (demo.SetEntryUserTags TxFaults.none 1 50 [1, 7, 3]).1 = none ∧
    ∃ ids, (demo.SetEntryUserTags TxFaults.none 1 50 [1, 7, 3]).2.EntryUserTagIDs 1 50 = .ok ids ∧
      (∀ t, t ∈ ids ↔ t ∈ [1, 7, 3] ∧ demo.UserTagIDExists 1 t = true) ∧
      (∀ t, t ∈ ids → ids.count t = 1) ∧
      (∀ t, (demo.SetEntryUserTags TxFaults.none 1 50 [1, 7, 3]).2.UserTagIDExists 1 t =
        demo.UserTagIDExists 1 t) :=
  ⟨by decide, rfl,
    C1_SetEntryUserTags_read_back demo TxFaults.none 1 50 [1, 7, 3] (by decide) rfl⟩

/-- C2: when `SetEntryUserTags(U, E, tagIDs)` returns an error, whichever of its statements
failed, the database after the call is the database before the call: the rows deleted and the rows
inserted before the failure are not kept. -/
theorem C2_SetEntryUserTags_error_restores (s : Storage) (f : TxFaults) (U E : Int)
    (tagIDs : List Int) (herr : (s.SetEntryUserTags f U E tagIDs).1 ≠ none) :
    (s.SetEntryUserTags f U E tagIDs).2 = s ∧
      (s.SetEntryUserTags f U E tagIDs).2.entry_user_tags = s.entry_user_tags := by
  have h := SetEntryUserTags_error s f U E tagIDs herr
  exact ⟨h, by rw [h]⟩

/-- C2, evaluated: user 1 replaces the tags of entry 50 by `[1, 9]`; the clearing statement
deletes `(50, 2)`, the first insert stores `(50, 1)`, the second fails because no tag has ID 9. -/
theorem C2_SetEntryUserTags_error_restores_witness :
    (demo.SetEntryUserTags TxFaults.none 1 50 [1, 9]).1 ≠ none ∧
    (demo.SetEntryUserTags TxFaults.none 1 50 [1, 9]).2 = demo ∧
    (demo.SetEntryUserTags TxFaults.none 1 50 [1, 9]).2.entry_user_tags = demo.entry_user_tags :=
  ⟨by decide, C2_SetEntryUserTags_error_restores demo TxFaults.none 1 50 [1, 9] (by decide)⟩

/-- C3, the code at a failing input: user 1 sets the tags of entry 50 to `[7]`, tag 7 being owned
by user 2 and not by user 1.  The call succeeds, stores the association `(50, 7)`, which was
absent before, and changes what `EntryUserTagIDs(2, 50)` returns from no tag to tag 7; the API
handler `setEntryUserTags` passes the list on as it is and answers NoContent. -/
theorem C3_SetEntryUserTags_stores_foreign_tag :
    demo.UserTagIDExists 1 7 = false ∧ demo.UserTagIDExists 2 7 = true ∧
    (demo.SetEntryUserTags TxFaults.none 1 50 [7]).1 = none ∧
    (⟨50, 7⟩ : EntryUserTagRow) ∉ demo.entry_user_tags ∧
    (⟨50, 7⟩ : EntryUserTagRow) ∈
      (demo.SetEntryUserTags TxFaults.none 1 50 [7]).2.entry_user_tags ∧
    demo.EntryUserTagIDs 2 50 = .ok [] ∧
    (demo.SetEntryUserTags TxFaults.none 1 50 [7]).2.EntryUserTagIDs 2 50 = .ok [7] ∧
    (api.setEntryUserTags demo TxFaults.none 1 50 (.ok [7])).1 = .NoContent :=
  ⟨by decide, by decide, rfl, by decide, by decide, rfl, rfl, rfl⟩

/-- C4: after `SetEntryUserTags(U, E, a)` and then `SetEntryUserTags(U, E, b)` both succeed, `b`
holding tags owned by `U`, `EntryUserTagIDs(U, E)` returns the elements of `b`, each once: nothing
of `a` outside `b` remains, nothing is duplicated, and an empty `b` gives an empty result. -/
theorem C4_second_replace_overrides (s : Storage) (f g : TxFaults) (U E : Int) (a b : List Int)
    (hpk : (s.user_tags.map (fun r => r.id)).Nodup)
    (hb : ∀ t ∈ b, s.UserTagIDExists U t = true)
    (h1 : (s.SetEntryUserTags f U E a).1 = none)
    (h2 : ((s.SetEntryUserTags f U E a).2.SetEntryUserTags g U E b).1 = none) :
    ∃ ids, ((s.SetEntryUserTags f U E a).2.SetEntryUserTags g U E b).2.EntryUserTagIDs U E
        = .ok ids ∧
      ids.Perm b ∧ ids.Nodup ∧ (∀ t, t ∈ ids ↔ t ∈ b) ∧ (b = [] → ids = []) := by
  obtain ⟨hs1, -, -⟩ := SetEntryUserTags_ok s f U E a h1
  have htags : (s.SetEntryUserTags f U E a).2.user_tags = s.user_tags := by rw [hs1]
  obtain ⟨hs2, hnd, -⟩ := SetEntryUserTags_ok _ g U E b h2
  have hread := EntryUserTagIDs_replaced (s.SetEntryUserTags f U E a).2 U E b (by rw [htags]; exact hpk)
  have hfilter : b.filter (fun t => (s.SetEntryUserTags f U E a).2.UserTagIDExists U t) = b := by
    rw [List.filter_eq_self]
    intro t ht
    have := hb t ht
    simpa [Storage.UserTagIDExists, htags] using this
  rw [hfilter] at hread
  refine ⟨b, ?_, List.Perm.refl _, hnd, fun _ => Iff.rfl, fun h => h⟩
  rw [hs2]; exact hread

/-- C4, evaluated: user 1 sets the tags of entry 50 to `[1, 2]`, then to `[2, 3]`. -/
theorem C4_second_replace_overrides_witness :
    (demo.user_tags.map (fun r => r.id)).Nodup ∧
    (∀ t ∈ [2, 3], demo.UserTagIDExists 1 t = true) ∧
    (demo.SetEntryUserTags TxFaults.none 1 50 [1, 2]).1 = none ∧
    ((demo.SetEntryUserTags TxFaults.none 1 50 [1, 2]).2.SetEntryUserTags
      TxFaults.none 1 50 [2, 3]).1 = none ∧
    ∃ ids, ((demo.SetEntryUserTags TxFaults.none 1 50 [1, 2]).2.SetEntryUserTags
        TxFaults.none 1 50 [2, 3]).2.EntryUserTagIDs 1 50 = .ok ids ∧
      ids.Perm [2, 3] ∧ ids.Nodup ∧ (∀ t, t ∈ ids ↔ t ∈ [2, 3]) ∧
      (([2, 3] : List Int) = [] → ids = []) :=
  ⟨by decide, by decide, rfl, rfl,
    C4_second_replace_overrides demo TxFaults.none TxFaults.none 1 50 [1, 2] [2, 3]
      (by decide) (by decide) rfl rfl⟩

/-- C5: `ValidateUserTagCreation` returns `error.tag_title_required` exactly when the title is the
empty string, whatever the store is (also the nil store), so a title made of a blank is not
empty; it returns `error.tag_already_exists` exactly when the title is non-empty and
`UserTagTitleExists(U, title)` is true; it returns no error exactly when the title is non-empty
and `UserTagTitleExists(U, title)` is false. -/
theorem C5_ValidateUserTagCreation (s : Storage) (U : Int) (title : String) :
    (ValidateUserTagCreation (some s) U ⟨title⟩ =
        .ret (some (NewLocalizedError "error.tag_title_required")) ↔ title = "") ∧
    (∀ store : Option Storage, ValidateUserTagCreation store U ⟨""⟩ =
        .ret (some (NewLocalizedError "error.tag_title_required"))) ∧
    (ValidateUserTagCreation (some s) U ⟨" "⟩ ≠
        .ret (some (NewLocalizedError "error.tag_title_required"))) ∧
    (ValidateUserTagCreation (some s) U ⟨title⟩ =
        .ret (some (NewLocalizedError "error.tag_already_exists")) ↔
      title ≠ "" ∧ s.UserTagTitleExists U title = true) ∧
    (ValidateUserTagCreation (some s) U ⟨title⟩ = .ret none ↔
      title ≠ "" ∧ s.UserTagTitleExists U title = false) := by
  refine ⟨?_, ?_, ?_, ?_, ?_⟩
  · by_cases ht : title = ""
    · simp [ValidateUserTagCreation, ht]
    · by_cases he : s.UserTagTitleExists U title = true <;>
        simp [ValidateUserTagCreation, ht, he, NewLocalizedError]
  · intro store; simp [ValidateUserTagCreation]
  · by_cases he : s.UserTagTitleExists U " " = true <;>
      simp [ValidateUserTagCreation, he, NewLocalizedError]
  · by_cases ht : title = ""
    · simp [ValidateUserTagCreation, ht, NewLocalizedError]
    · by_cases he : s.UserTagTitleExists U title = true <;>
        simp [ValidateUserTagCreation, ht, he, NewLocalizedError]
  · by_cases ht : title = ""
    · simp [ValidateUserTagCreation, ht]
    · by_cases he : s.UserTagTitleExists U title = true <;>
        simp [ValidateUserTagCreation, ht, he]

/-- C6: for a modification request that carries a title, `ValidateUserTagModification` returns
`error.tag_title_required` exactly when the title is the empty string, `error.tag_already_exists`
exactly when the title is non-empty and `AnotherUserTagExists(U, tagID, title)` is true, and no
error exactly when the title is non-empty and that probe is false; the probe is true exactly when
a tag of `U` with a different ID has a title equal under `lower`. -/
theorem C6_ValidateUserTagModification_with_title (s : Storage) (U tagID : Int)
    (title : String) :
    (ValidateUserTagModification (some s) U tagID ⟨some title⟩ =
        .ret (some (NewLocalizedError "error.tag_title_required")) ↔ title = "") ∧
    (ValidateUserTagModification (some s) U tagID ⟨some title⟩ =
        .ret (some (NewLocalizedError "error.tag_already_exists")) ↔
      title ≠ "" ∧ s.AnotherUserTagExists U tagID title = true) ∧
    (ValidateUserTagModification (some s) U tagID ⟨some title⟩ = .ret none ↔
      title ≠ "" ∧ s.AnotherUserTagExists U tagID title = false) ∧
    (s.AnotherUserTagExists U tagID title = true ↔
      ∃ r ∈ s.user_tags, r.user_id = U ∧ r.id ≠ tagID ∧ s.lower r.title = s.lower title) := by
  refine ⟨?_, ?_, ?_, ?_⟩
  · by_cases ht : title = ""
    · simp [ValidateUserTagModification, ht]
    · by_cases he : s.AnotherUserTagExists U tagID title = true <;>
        simp [ValidateUserTagModification, ht, he, NewLocalizedError]
  · by_cases ht : title = ""
    · simp [ValidateUserTagModification, ht, NewLocalizedError]
    · by_cases he : s.AnotherUserTagExists U tagID title = true <;>
        simp [ValidateUserTagModification, ht, he, NewLocalizedError]
  · by_cases ht : title = ""
    · simp [ValidateUserTagModification, ht]
    · by_cases he : s.AnotherUserTagExists U tagID title = true <;>
        simp [ValidateUserTagModification, ht, he]
  · simp [Storage.AnotherUserTagExists]

/-- C7: for a modification request without a title (`Title` is nil), `ValidateUserTagModification`
returns no error for every store, the nil store included (so it does not touch the store), and
that is not what it returns for the empty title. -/
theorem C7_ValidateUserTagModification_nil_title (store : Option Storage) (U tagID : Int) :
    ValidateUserTagModification store U tagID ⟨none⟩ = .ret none ∧
    ValidateUserTagModification none U tagID ⟨none⟩ = .ret none ∧
    ValidateUserTagModification store U tagID ⟨none⟩ ≠
      ValidateUserTagModification store U tagID ⟨some ""⟩ := by
  simp [ValidateUserTagModification]

/-- C8: in a store where no two tags of a user have titles equal under `lower` (I1), the API
`createUserTag` flow and the API `updateUserTag` flow, run on any request, leave a store where
I1 holds again. -/
theorem C8_I1_preserved_by_flows (s : Storage)
    (hpk : (s.user_tags.map (fun r => r.id)).Nodup) (hI1 : s.I1) (U tagID : Int)
    (creation : Except String UserTagCreationRequest)
    (modification : Except String UserTagModificationRequest) :
    (api.createUserTag s U creation).2.I1 ∧ (api.updateUserTag s U tagID modification).2.I1 :=
  ⟨createUserTag_I1 s hI1 U creation, updateUserTag_I1 s hpk hI1 U tagID modification⟩

/-- C8, evaluated: user 1 creates tag "Ops" and renames tag 2 to "Ops". -/
theorem C8_I1_preserved_by_flows_witness :
    (demo.user_tags.map (fun r => r.id)).Nodup ∧ demo.I1 ∧
    (api.createUserTag demo 1 (.ok ⟨"Ops"⟩)).2.I1 ∧
    (api.updateUserTag demo 1 2 (.ok ⟨some "Ops"⟩)).2.I1 :=
  ⟨by decide, by unfold Storage.I1; decide,
    C8_I1_preserved_by_flows demo (by decide) (by unfold Storage.I1; decide) 1 2
      (.ok ⟨"Ops"⟩) (.ok ⟨some "Ops"⟩)⟩

/-- C9: after `CreateUserTag(U, T)` succeeds, `UserTagTitleExists(U, T')` is true for every `T'`
equal to `T` under `lower`; `ValidateUserTagCreation(U, T')` then returns
`error.tag_already_exists` (for a non-empty `T'`), and the `createUserTag` flow for `T'` answers
BadRequest and leaves the store as it is. -/
theorem C9_created_title_is_taken (s : Storage) (U : Int) (T T' : String) (tag : UserTag)
    (hcreate : (s.CreateUserTag U ⟨T⟩).1 = .ok tag) (heq : s.lower T' = s.lower T) :
    (s.CreateUserTag U ⟨T⟩).2.UserTagTitleExists U T' = true ∧
    (T' ≠ "" → ValidateUserTagCreation (some (s.CreateUserTag U ⟨T⟩).2) U ⟨T'⟩ =
      .ret (some (NewLocalizedError "error.tag_already_exists"))) ∧
    (∃ msg, api.createUserTag (s.CreateUserTag U ⟨T⟩).2 U (.ok ⟨T'⟩) =
      (.BadRequest msg, (s.CreateUserTag U ⟨T⟩).2)) := by
  have hex : (s.CreateUserTag U ⟨T⟩).2.UserTagTitleExists U T' = true := by
    rcases CreateUserTag_eq s U ⟨T⟩ with h | h
    · rw [h] at hcreate; simp at hcreate
    · rw [h]
      unfold Storage.UserTagTitleExists
      rw [List.any_eq_true]
      exact ⟨⟨s.user_tags_id_seq, U, T⟩, by simp, by simpa using heq.symm⟩
  refine ⟨hex, ?_, ?_⟩
  · intro hne
    simp [ValidateUserTagCreation, hne, hex]
  · by_cases hne : T' = ""
    · exact ⟨_, by simp [api.createUserTag, ValidateUserTagCreation, hne]; rfl⟩
    · exact ⟨_, by simp [api.createUserTag, ValidateUserTagCreation, hne, hex]; rfl⟩

/-- C9, evaluated: user 1 creates "Go", then asks for "go". -/
theorem C9_created_title_is_taken_witness :
    (demo.CreateUserTag 1 ⟨"Go"⟩).1 = .ok ⟨8, 1, "Go", none⟩ ∧
    demo.lower "go" = demo.lower "Go" ∧
    (demo.CreateUserTag 1 ⟨"Go"⟩).2.UserTagTitleExists 1 "go" = true ∧
    ValidateUserTagCreation (some (demo.CreateUserTag 1 ⟨"Go"⟩).2) 1 ⟨"go"⟩ =
      .ret (some (NewLocalizedError "error.tag_already_exists")) ∧
    (∃ msg, api.createUserTag (demo.CreateUserTag 1 ⟨"Go"⟩).2 1 (.ok ⟨"go"⟩) =
      (.BadRequest msg, (demo.CreateUserTag 1 ⟨"Go"⟩).2)) :=
  have h := C9_created_title_is_taken demo 1 "Go" "go" ⟨8, 1, "Go", none⟩ rfl (by decide)
  ⟨rfl, by decide, h.1, h.2.1 (by decide), h.2.2⟩

/-- C10: under I1, validating the rename of a stored tag to its own current title never returns
`error.tag_already_exists`; when that title is non-empty the validation returns no error, and the
`updateUserTag` flow answers with the tag, its title as before, and leaves the store as it is. -/
theorem C10_rename_to_own_title (s : Storage) (hI1 : s.I1) (t : UserTagRow)
    (ht : t ∈ s.user_tags) :
    ValidateUserTagModification (some s) t.user_id t.id ⟨some t.title⟩ ≠
      .ret (some (NewLocalizedError "error.tag_already_exists")) ∧
    (t.title ≠ "" →
      ValidateUserTagModification (some s) t.user_id t.id ⟨some t.title⟩ = .ret none) ∧
    (t.title ≠ "" → (s.user_tags.map (fun r => r.id)).Nodup → s.accepts s.user_tags = true →
      api.updateUserTag s t.user_id t.id (.ok ⟨some t.title⟩) =
        (.Created ⟨t.id, t.user_id, t.title, none⟩, s)) := by
  have hno := AnotherUserTagExists_own_title s hI1 t ht
  refine ⟨?_, ?_, ?_⟩
  · by_cases hne : t.title = "" <;>
      simp [ValidateUserTagModification, hne, hno, NewLocalizedError]
  · intro hne
    simp [ValidateUserTagModification, hne, hno]
  · intro hne hpk hacc
    have hrows := updatedRows_same_title s hpk t ht none
    unfold updatedRows at hrows
    simp only at hrows
    simp only [api.updateUserTag, UserTagByID_of_mem s hpk t ht, ValidateUserTagModification,
      UserTagRow.scan, hne, hno, if_false, Bool.false_eq_true,
      UserTagModificationRequest.Patch, Storage.UpdateUserTag, hrows, hacc, if_true]

/-- C10, evaluated: user 1 renames tag 2 "devops" to "devops". -/
theorem C10_rename_to_own_title_witness :
    demo.I1 ∧ (⟨2, 1, "devops"⟩ : UserTagRow) ∈ demo.user_tags ∧
    ValidateUserTagModification (some demo) 1 2 ⟨some "devops"⟩ ≠
      .ret (some (NewLocalizedError "error.tag_already_exists")) ∧
    ValidateUserTagModification (some demo) 1 2 ⟨some "devops"⟩ = .ret none ∧
    api.updateUserTag demo 1 2 (.ok ⟨some "devops"⟩) = (.Created ⟨2, 1, "devops", none⟩, demo) :=
  have h := C10_rename_to_own_title demo (by unfold Storage.I1; decide) ⟨2, 1, "devops"⟩
    (by decide)
  ⟨by unfold Storage.I1; decide, by decide, h.1, h.2.1 (by decide),
    h.2.2 (by decide) (by decide) rfl⟩

/-- C11: when tag ID `x` is stored for a user other than `U`, or is not stored at all, the API
`updateUserTag` handler called as `U` on `x` answers NotFound for every request body (decoded or
malformed) and leaves the store as it is. -/
theorem C11_updateUserTag_foreign_tag_not_found (s : Storage) (U x : Int)
    (body : Except String UserTagModificationRequest)
    (hpk : (s.user_tags.map (fun r => r.id)).Nodup)
    (hx : (∃ r ∈ s.user_tags, r.id = x ∧ r.user_id ≠ U) ∨
      x ∉ s.user_tags.map (fun r => r.id)) :
    api.updateUserTag s U x body = (.NotFound, s) := by
  have hno : s.UserTagIDExists U x = false := by
    rcases hx with ⟨r, hr, hid, hV⟩ | hx
    · exact UserTagIDExists_foreign s hpk U x r hr hid hV
    · exact UserTagIDExists_missing s U x hx
  unfold api.updateUserTag
  rw [UserTagByID_none s U x hno]

/-- C11, evaluated: user 1 asks to rename tag 7 of user 2 to "golang", a title user 1 already
has. -/
theorem C11_updateUserTag_foreign_tag_not_found_witness :
    (demo.user_tags.map (fun r => r.id)).Nodup ∧
    ((∃ r ∈ demo.user_tags, r.id = 7 ∧ r.user_id ≠ 1) ∨
      (7 : Int) ∉ demo.user_tags.map (fun r => r.id)) ∧
    api.updateUserTag demo 1 7 (.ok ⟨some "golang"⟩) = (.NotFound, demo) :=
  ⟨by decide, Or.inl ⟨⟨7, 2, "Go"⟩, by decide, rfl, by decide⟩,
    C11_updateUserTag_foreign_tag_not_found demo 1 7 (.ok ⟨some "golang"⟩) (by decide)
      (Or.inl ⟨⟨7, 2, "Go"⟩, by decide, rfl, by decide⟩)⟩

/-- C12: `RemoveUserTag(U, x)` returns an error exactly when `U` has no tag with ID `x`, and then
the store is as before; when `U` has the tag (one row, under the primary key) the call succeeds
and the tag rows left are the old ones without that row; a second `RemoveUserTag(U, x)` right
after returns an error. -/
theorem C12_RemoveUserTag (s : Storage) (U x : Int) :
    ((s.RemoveUserTag U x).1 ≠ none ↔ s.UserTagIDExists U x = false) ∧
    (s.UserTagIDExists U x = false → (s.RemoveUserTag U x).2 = s) ∧
    (∀ r ∈ s.user_tags, r.id = x → r.user_id = U → (s.user_tags.map (fun r => r.id)).Nodup →
      (s.RemoveUserTag U x).1 = none ∧
      (s.RemoveUserTag U x).2.user_tags = s.user_tags.erase r ∧
      (s.RemoveUserTag U x).2.user_tags.length + 1 = s.user_tags.length) ∧
    ((s.RemoveUserTag U x).2.RemoveUserTag U x).1 ≠ none := by
  obtain ⟨hs, herr⟩ := RemoveUserTag_eq s U x
  refine ⟨herr, ?_, ?_, ?_⟩
  · intro h
    rw [hs]; exact deleteUserTag_miss s U x h
  · intro r hr hid hu hpk
    subst hid; subst hu
    have hex : s.UserTagIDExists r.user_id r.id = true := by
      unfold Storage.UserTagIDExists
      rw [List.any_eq_true]
      exact ⟨r, hr, by simp⟩
    have herase := deleteUserTag_erase s hpk r hr
    refine ⟨?_, ?_, ?_⟩
    · by_contra hne
      have := herr.mp hne
      rw [hex] at this
      exact absurd this (by simp)
    · rw [hs]; exact herase
    · rw [hs, herase]; exact List.length_erase_add_one hr
  · rw [(RemoveUserTag_eq _ U x).2, hs]
    exact deleteUserTag_gone s U x

/-- C12, evaluated: user 1 removes tag 2, then removes it again; user 1 removing tag 7 of user 2
changes nothing. -/
theorem C12_RemoveUserTag_witness :
    (demoTagged.RemoveUserTag 1 2).1 = none ∧
    (demoTagged.RemoveUserTag 1 2).2.user_tags = demoTagged.user_tags.erase ⟨2, 1, "devops"⟩ ∧
    (demoTagged.RemoveUserTag 1 2).2.user_tags.length + 1 = demoTagged.user_tags.length ∧
    ((demoTagged.RemoveUserTag 1 2).2.RemoveUserTag 1 2).1 ≠ none ∧
    (demoTagged.RemoveUserTag 1 7).1 ≠ none ∧
    (demoTagged.RemoveUserTag 1 7).2 = demoTagged :=
  have h := C12_RemoveUserTag demoTagged 1 2
  have h' := C12_RemoveUserTag demoTagged 1 7
  have h3 := h.2.2.1 ⟨2, 1, "devops"⟩ (by decide) rfl rfl (by decide)
  ⟨h3.1, h3.2.1, h3.2.2, h.2.2.2, h'.1.mpr (by decide), h'.2.1 (by decide)⟩

/-- C13: after `RemoveUserTag(U, x)` succeeds, no stored association references `x`: the
associations left are exactly the old ones that reference another tag, and `EntryUserTagIDs(U, E)`
does not contain `x` for any entry `E`. -/
theorem C13_RemoveUserTag_no_dangling (s : Storage) (U x : Int)
    (hok : (s.RemoveUserTag U x).1 = none) :
    (∀ a ∈ (s.RemoveUserTag U x).2.entry_user_tags, a.user_tag_id ≠ x) ∧
    (s.RemoveUserTag U x).2.entry_user_tags =
      s.entry_user_tags.filter (fun a => a.user_tag_id ≠ x) ∧
    (∀ E, ∃ ids, (s.RemoveUserTag U x).2.EntryUserTagIDs U E = .ok ids ∧ x ∉ ids) := by
  obtain ⟨hs, herr⟩ := RemoveUserTag_eq s U x
  have hex : s.UserTagIDExists U x = true := by
    cases h : s.UserTagIDExists U x with
    | true => rfl
    | false => exact absurd hok (herr.mpr h)
  have hcas : (s.RemoveUserTag U x).2.entry_user_tags =
      s.entry_user_tags.filter (fun a => a.user_tag_id ≠ x) := by
    rw [hs]; exact deleteUserTag_cascade s U x hex
  refine ⟨?_, hcas, ?_⟩
  · intro a ha
    rw [hcas, List.mem_filter] at ha
    simpa using ha.2
  · intro E
    refine ⟨_, rfl, ?_⟩
    intro hmem
    have := EntryUserTagIDs_owned (s.RemoveUserTag U x).2 U E _ rfl x hmem
    rw [hs, deleteUserTag_gone s U x] at this
    exact absurd this (by simp)

/-- C13, evaluated: user 1 removes tag 2, carried by entries 50 and 51. -/
theorem C13_RemoveUserTag_no_dangling_witness :
    (demoTagged.RemoveUserTag 1 2).1 = none ∧
    (∀ a ∈ (demoTagged.RemoveUserTag 1 2).2.entry_user_tags, a.user_tag_id ≠ 2) ∧
    (demoTagged.RemoveUserTag 1 2).2.entry_user_tags =
      demoTagged.entry_user_tags.filter (fun a => a.user_tag_id ≠ 2) ∧
    (∀ E, ∃ ids, (demoTagged.RemoveUserTag 1 2).2.EntryUserTagIDs 1 E = .ok ids ∧ 2 ∉ ids) :=
  ⟨by decide, C13_RemoveUserTag_no_dangling demoTagged 1 2 (by decide)⟩

/-- C14: `Patch` keeps `ID`, `UserID` and `EntryCount` for every request; with a title present
(the empty string included) the tag is the old one with exactly that title, and with no title the
tag is unchanged. -/
theorem C14_Patch_changes_title_only (tag : UserTag) (r : UserTagModificationRequest)
    (title : String) :
    (r.Patch tag).ID = tag.ID ∧ (r.Patch tag).UserID = tag.UserID ∧
    (r.Patch tag).EntryCount = tag.EntryCount ∧
    (UserTagModificationRequest.Patch ⟨some title⟩ tag).Title = title ∧
    UserTagModificationRequest.Patch ⟨some title⟩ tag = { tag with Title := title } ∧
    (UserTagModificationRequest.Patch ⟨some ""⟩ tag).Title = "" ∧
    UserTagModificationRequest.Patch ⟨none⟩ tag = tag := by
  obtain ⟨t⟩ := r
  cases t <;> simp [UserTagModificationRequest.Patch]

end Miniflux
